import Mathlib

/-!
Verification of the OpenHarness streaming subsystem.

This file gives a shallow embedding of the parts of the repository that the
frozen claims are about:

* the SSE frame decoder (`SSETransport.connect` buffer loop and
  `parseSSEEvent` from the SSE transport module),
* the push-callback-to-pull-sequence bridge (`SSETransport.stream`),
* the tool registry (`AnthropicAgentAdapter.invokeTool`),
* the agentic loop (`AnthropicAgentAdapter.execute` and
  `AnthropicAgentAdapter.executeStream`).

Text is modelled as `List Char`; the backend (Anthropic client) is an
oracle function from the conversation so far to a response; the abort
signal is an arbitrary boolean function of the global number of
stream-event checks performed so far.  Wall-clock fields (`duration_ms`,
the floating-point `percentage` of progress events) are not modelled.
-/

namespace OpenHarness

/-! ## SSE frame decoding

Source: the SSE transport module (`parseSSEEvent`, and the read loop of
`SSETransport.connect`: append chunk to `buffer`, split on `"\n\n"`, keep
the trailing incomplete segment, parse and emit every earlier segment whose
trim is nonempty; at end of stream, flush the residual buffer). -/

/-- JS `String.prototype.trim`, modelled on char lists: drop whitespace
from both ends. -/
def trimChars (l : List Char) : List Char :=
  ((l.dropWhile Char.isWhitespace).reverse.dropWhile Char.isWhitespace).reverse

/-- JS `line.startsWith(p)`. -/
def startsWith (p l : List Char) : Bool :=
  p.isPrefixOf l

/-- Helper for the splitters: prepend a char to the first segment. -/
def consHead (c : Char) : List (List Char) → List (List Char)
  | [] => [[c]]
  | s :: ss => (c :: s) :: ss

/-- JS `eventText.split("\n")`. -/
def splitLines : List Char → List (List Char)
  | [] => [[]]
  | c :: rest =>
    if c = '\n' then [] :: splitLines rest
    else consHead c (splitLines rest)

/-- JS `buffer.split("\n\n")` (leftmost, non-overlapping, as in
`String.prototype.split` with a string separator). -/
def splitNN : List Char → List (List Char)
  | [] => [[]]
  | [c] => [[c]]
  | c :: d :: rest =>
    if c = '\n' ∧ d = '\n' then [] :: splitNN rest
    else consHead c (splitNN (d :: rest))

/-- A parsed SSE frame (`SSEEvent` in the source): optional id, optional
event name, data payload. -/
structure SSEEvent where
  id : Option (List Char)
  event : Option (List Char)
  data : List (Char)
deriving DecidableEq

/-- The line loop of `parseSSEEvent`: walk the lines, keeping the current
id, event name and collected data lines. -/
def parseSSELoop : List (List Char) → Option (List Char) → Option (List Char) →
    List (List Char) → Option SSEEvent
  | [], idAcc, evAcc, datas =>
    if datas = [] then none
    else some { id := idAcc, event := evAcc, data := List.intercalate ['\n'] datas }
  | l :: rest, idAcc, evAcc, datas =>
    if startsWith "id:".toList l then
      parseSSELoop rest (some (trimChars (l.drop 3))) evAcc datas
    else if startsWith "event:".toList l then
      parseSSELoop rest idAcc (some (trimChars (l.drop 6))) datas
    else if startsWith "data:".toList l then
      parseSSELoop rest idAcc evAcc (datas ++ [trimChars (l.drop 5)])
    else
      parseSSELoop rest idAcc evAcc datas

/-- `parseSSEEvent` from the source: split into lines, process each line,
return `none` when no `data:` line was seen. -/
def parseSSEEvent (eventText : List Char) : Option SSEEvent :=
  parseSSELoop (splitLines eventText) none none []

/-- One `feed` of the connect read loop: append the chunk to the buffer,
split on the double newline; all segments but the last are complete, the
last is retained as the new buffer (`events.pop() || ""`). -/
def feedSSE (buffer chunk : List Char) : List (List Char) × List Char :=
  let parts := splitNN (buffer ++ chunk)
  (parts.dropLast, parts.getLast?.getD [])

/-- Emission of a list of complete segments: segments with blank trim are
skipped, the others are parsed, and frames that parse (`data:` present)
are emitted. -/
def emitSSE (segs : List (List Char)) : List SSEEvent :=
  segs.filterMap fun s => if trimChars s = [] then none else parseSSEEvent s

/-- End-of-stream flush: parse the residual buffer when its trim is
nonempty. -/
def flushSSE (buffer : List Char) : List SSEEvent :=
  if trimChars buffer = [] then [] else (parseSSEEvent buffer).toList

/-- The read loop over a list of chunks: returns the frames emitted and
the final residual buffer. -/
def runFeeds : List Char → List (List Char) → List SSEEvent × List Char
  | buffer, [] => ([], buffer)
  | buffer, chunk :: chunks =>
    let fed := feedSSE buffer chunk
    let rest := runFeeds fed.2 chunks
    (emitSSE fed.1 ++ rest.1, rest.2)

/-- Full decode of a chunked stream: run the read loop from an empty
buffer, then flush. -/
def decodeChunks (chunks : List (List Char)) : List SSEEvent :=
  let r := runFeeds [] chunks
  r.1 ++ flushSSE r.2

theorem consHead_ne_nil (c : Char) (l : List (List Char)) : consHead c l ≠ [] := by
  cases l <;> simp [consHead]

theorem splitNN_ne_nil : ∀ l : List Char, splitNN l ≠ [] := by
  intro l
  match l with
  | [] => simp [splitNN]
  | [c] => simp [splitNN]
  | c :: d :: rest =>
    rw [splitNN]
    split
    · simp
    · exact consHead_ne_nil _ _

theorem splitNN_singleton : ∀ (l : List Char) (s : List Char), splitNN l = [s] → s = l := by
  intro l
  induction l using splitNN.induct with
  | case1 => intro s h; simp [splitNN] at h; exact h
  | case2 c => intro s h; simp [splitNN] at h; exact h.symm
  | case3 c d rest h ih =>
    intro s hs
    rw [splitNN, if_pos h] at hs
    exact absurd (List.cons_eq_cons.mp hs).2.symm (fun h2 => splitNN_ne_nil rest h2.symm)
  | case4 c d rest h ih =>
    intro s hs
    rw [splitNN, if_neg h] at hs
    obtain ⟨t, ts, hts⟩ := List.exists_cons_of_ne_nil (splitNN_ne_nil (d :: rest))
    rw [hts] at hs
    simp only [consHead, List.cons_eq_cons] at hs
    obtain ⟨h1, h2⟩ := hs
    have := ih t (by rw [hts, h2])
    rw [← h1, this]

theorem splitNN_append : ∀ (x y : List Char),
    splitNN (x ++ y) =
      (splitNN x).dropLast ++ splitNN ((splitNN x).getLast?.getD [] ++ y) := by
  intro x
  induction x using splitNN.induct with
  | case1 => intro y; simp [splitNN]
  | case2 c => intro y; simp [splitNN]
  | case3 c d rest h ih =>
    intro y
    obtain ⟨hc, hd⟩ := h
    subst hc hd
    obtain ⟨s, ss, hs⟩ := List.exists_cons_of_ne_nil (splitNN_ne_nil rest)
    have lhs : splitNN (('\n' :: '\n' :: rest) ++ y) = [] :: splitNN (rest ++ y) := by
      rw [List.cons_append, List.cons_append, splitNN, if_pos ⟨rfl, rfl⟩]
    have rhs1 : splitNN ('\n' :: '\n' :: rest) = [] :: splitNN rest := by
      rw [splitNN, if_pos ⟨rfl, rfl⟩]
    rw [lhs, rhs1, ih, hs]
    simp [List.dropLast_cons₂, List.getLast?_cons_cons]
  | case4 c d rest h ih =>
    intro y
    have hcons : ∀ z : List Char, splitNN (c :: d :: z) = consHead c (splitNN (d :: z)) := by
      intro z; rw [splitNN, if_neg h]
    have lhs : splitNN ((c :: d :: rest) ++ y) = consHead c (splitNN ((d :: rest) ++ y)) := by
      simpa using hcons (rest ++ y)
    obtain ⟨s, ss, hs⟩ := List.exists_cons_of_ne_nil (splitNN_ne_nil (d :: rest))
    cases ss with
    | nil =>
      have hsl : s = d :: rest := splitNN_singleton _ _ hs
      rw [lhs, ih, hs, hsl, hcons rest, hs]
      simp [consHead, hsl, hcons]
    | cons t ts =>
      rw [lhs, ih, hs, hcons rest, hs]
      simp only [consHead, List.dropLast_cons₂, List.getLast?_cons_cons, List.cons_append]

theorem emitSSE_append (a b : List (List Char)) :
    emitSSE (a ++ b) = emitSSE a ++ emitSSE b := by
  simp [emitSSE, List.filterMap_append]

theorem runFeeds_merge (buffer a b : List Char) (chunks : List (List Char)) :
    runFeeds buffer ((a ++ b) :: chunks) = runFeeds buffer (a :: b :: chunks) := by
  have hsplit : splitNN (buffer ++ (a ++ b)) =
      (splitNN (buffer ++ a)).dropLast ++
        splitNN ((splitNN (buffer ++ a)).getLast?.getD [] ++ b) := by
    rw [← List.append_assoc]
    exact splitNN_append (buffer ++ a) b
  obtain ⟨s, ss, hs⟩ :=
    List.exists_cons_of_ne_nil (splitNN_ne_nil ((splitNN (buffer ++ a)).getLast?.getD [] ++ b))
  simp only [runFeeds, feedSSE, hsplit, hs]
  rw [List.dropLast_append_cons, List.getLast?_append,
    List.getLast?_eq_getLast (s :: ss) (by simp), Option.or_some]
  simp [emitSSE_append]

theorem runFeeds_join : ∀ (chunks : List (List Char)) (c buffer : List Char),
    runFeeds buffer (c :: chunks) = runFeeds buffer [c ++ chunks.flatten] := by
  intro chunks
  induction chunks with
  | nil => intro c buffer; simp
  | cons c2 cs ih =>
    intro c buffer
    rw [← runFeeds_merge, ih (c ++ c2) buffer, List.flatten_cons, List.append_assoc]

/-- C1: for every input text and every way of splitting it into chunks,
feeding the chunks one at a time to the frame decoder loop (append,
split on the double newline, parse every segment before the last, retain
the last) followed by the end-of-stream flush yields the same ordered
list of parsed SSE frames as feeding the whole text as a single chunk. -/
theorem sse_decode_chunk_invariant (chunks : List (List Char)) :
    decodeChunks chunks = decodeChunks [chunks.flatten] := by
  cases chunks with
  | nil => rfl
  | cons c cs =>
    unfold decodeChunks
    rw [List.flatten_cons, ← runFeeds_join cs c []]

/-! ## Characterization of `parseSSEEvent` (claim C9)

The source walks the frame's lines with three mutable slots (current id,
current event name, collected data lines).  The spec-side view below
extracts the same information directly: the data payloads are the trimmed
suffixes of the lines labelled `data:`, in order, and the id / event name
come from the last line with the respective label. -/

/-- Trimmed payloads of the lines labelled `data:`, in order. -/
def dataSegs (lines : List (List Char)) : List (List Char) :=
  (lines.filter fun l => startsWith "data:".toList l).map fun l => trimChars (l.drop 5)

/-- The last line carrying the given label, with the first `n` chars (the
label) removed and the remainder trimmed. -/
def lastTagged (tag : List Char) (n : Nat) (lines : List (List Char)) : Option (List Char) :=
  ((lines.filter fun l => startsWith tag l).getLast?).map fun l => trimChars (l.drop n)

theorem startsWith_head {c : Char} {p l : List Char} :
    startsWith (c :: p) l = true → l.head? = some c := by
  cases l with
  | nil => simp [startsWith, List.isPrefixOf]
  | cons x xs =>
    simp only [startsWith, List.isPrefixOf, Bool.and_eq_true, beq_iff_eq, List.head?_cons,
      Option.some.injEq]
    exact fun h => h.1.symm

theorem startsWith_disjoint {c1 c2 : Char} {p1 p2 l : List Char} (hne : c1 ≠ c2)
    (h : startsWith (c1 :: p1) l = true) : startsWith (c2 :: p2) l = false := by
  cases hsw : startsWith (c2 :: p2) l with
  | false => rfl
  | true =>
    have h1 := startsWith_head h
    have h2 := startsWith_head hsw
    rw [h1] at h2
    exact absurd (Option.some.injEq .. ▸ h2 :) hne

theorem getLast?_cons_or {α : Type} (a : α) (l : List α) :
    (a :: l).getLast? = l.getLast?.or (some a) := by
  have h : ([a] ++ l).getLast? = l.getLast?.or [a].getLast? := List.getLast?_append
  simpa using h

theorem parseSSELoop_spec : ∀ (lines : List (List Char)) (idAcc evAcc : Option (List Char))
    (datas : List (List Char)),
    parseSSELoop lines idAcc evAcc datas =
      (if datas ++ dataSegs lines = [] then none
       else some { id := (lastTagged "id:".toList 3 lines).or idAcc,
                   event := (lastTagged "event:".toList 6 lines).or evAcc,
                   data := List.intercalate ['\n'] (datas ++ dataSegs lines) }) := by
  intro lines
  induction lines with
  | nil => intro idAcc evAcc datas; simp [parseSSELoop, dataSegs, lastTagged]
  | cons l rest ih =>
    intro idAcc evAcc datas
    by_cases hid : startsWith "id:".toList l = true
    · have hdata : startsWith "data:".toList l = false := startsWith_disjoint (by decide) hid
      have hev : startsWith "event:".toList l = false := startsWith_disjoint (by decide) hid
      have hid2 : startsWith ('i' :: 'd' :: [':']) l = true := hid
      have hev2 : startsWith ('e' :: 'v' :: 'e' :: 'n' :: 't' :: [':']) l = false := hev
      have hdata2 : startsWith ('d' :: 'a' :: 't' :: 'a' :: [':']) l = false := hdata
      rw [parseSSELoop, if_pos hid, ih]
      simp [dataSegs, lastTagged, List.filter_cons, hid2, hev2, hdata2,
        getLast?_cons_or, Option.map_or', Option.or_assoc]
    · rw [parseSSELoop, if_neg hid]
      replace hid : startsWith "id:".toList l = false := by simpa using hid
      have hid2 : startsWith ('i' :: 'd' :: [':']) l = false := hid
      by_cases hev : startsWith "event:".toList l = true
      · have hdata : startsWith "data:".toList l = false := startsWith_disjoint (by decide) hev
        have hev2 : startsWith ('e' :: 'v' :: 'e' :: 'n' :: 't' :: [':']) l = true := hev
        have hdata2 : startsWith ('d' :: 'a' :: 't' :: 'a' :: [':']) l = false := hdata
        rw [if_pos hev, ih]
        simp [dataSegs, lastTagged, List.filter_cons, hid2, hev2, hdata2,
          getLast?_cons_or, Option.map_or', Option.or_assoc]
      · rw [if_neg hev]
        replace hev : startsWith "event:".toList l = false := by simpa using hev
        have hev2 : startsWith ('e' :: 'v' :: 'e' :: 'n' :: 't' :: [':']) l = false := hev
        by_cases hdata : startsWith "data:".toList l = true
        · have hdata2 : startsWith ('d' :: 'a' :: 't' :: 'a' :: [':']) l = true := hdata
          rw [if_pos hdata, ih]
          simp [dataSegs, lastTagged, List.filter_cons, hid2, hev2, hdata2, List.append_assoc]
        · rw [if_neg hdata, ih]
          replace hdata : startsWith "data:".toList l = false := by simpa using hdata
          have hdata2 : startsWith ('d' :: 'a' :: 't' :: 'a' :: [':']) l = false := hdata
          simp [dataSegs, lastTagged, List.filter_cons, hid2, hev2, hdata2]

/-- C9: parsing one complete frame processes it line by line: a line
prefixed `id:` sets the frame id (trimmed, last such line wins), a line
prefixed `event:` sets the event name, each line prefixed `data:` is
trimmed and collected with multiple data lines joined by a newline, and
comment lines / all other lines are ignored; a frame containing zero
`data:` lines yields no frame at all (the parser returns `none` rather
than an error). -/
theorem parseSSEEvent_characterization (t : List Char) :
    parseSSEEvent t =
      (if dataSegs (splitLines t) = [] then none
       else some { id := lastTagged "id:".toList 3 (splitLines t),
                   event := lastTagged "event:".toList 6 (splitLines t),
                   data := List.intercalate ['\n'] (dataSegs (splitLines t)) }) := by
  have h := parseSSELoop_spec (splitLines t) none none []
  simpa [parseSSEEvent, Option.or_none] using h

/-! ## The Anthropic agent adapter

Data model for the agentic loop (`AnthropicAgentAdapter` in the adapter
package).  Tool inputs/outputs and JSON payloads are modelled as plain
strings; handlers may either return a result or throw (modelled by
`HandlerOutcome`). -/

/-- A tool invocation result (`ToolResult` in the source): never an
exception, always this shape. -/
structure ToolResult where
  success : Bool
  output : Option String := none
  error : Option String := none
deriving DecidableEq

/-- Outcome of running a registered handler: a normal result, or a thrown
exception carrying its message. -/
inductive HandlerOutcome
  | ok (r : ToolResult)
  | thrown (msg : String)

/-- The name-keyed handler table of the adapter (`this.tools`). -/
def ToolRegistry : Type :=
  String → Option (String → HandlerOutcome)

/-- `AnthropicAgentAdapter.invokeTool`: look up the handler; unknown names
give a structured not-found failure; a throwing handler is caught at the
invocation boundary and converted into a failure result.  By its type this
function always returns a `ToolResult` and never raises. -/
def invokeTool (tools : ToolRegistry) (toolId : String) (input : String) : ToolResult :=
  match tools toolId with
  | none => { success := false, error := some ("Tool not found: " ++ toolId) }
  | some handler =>
    match handler input with
    | .ok r => r
    | .thrown msg => { success := false, error := some msg }

/-- Stop reason of a model response. -/
inductive StopReason
  | endTurn
  | toolUse
  | other
deriving DecidableEq

/-- A content block of a model message: text, or a tool-use request. -/
inductive Block
  | text (s : String)
  | toolUse (id name input : String)
deriving DecidableEq

/-- A `tool_result` block sent back to the model. -/
structure ToolResultBlock where
  toolUseId : String
  content : String
  isError : Bool
deriving DecidableEq

/-- Message content: the initial plain-text user message, an assistant
turn of content blocks, or a user turn of tool results. -/
inductive MsgContent
  | text (s : String)
  | blocks (bs : List Block)
  | toolResults (rs : List ToolResultBlock)
deriving DecidableEq

/-- Message role. -/
inductive Role
  | user
  | assistant
deriving DecidableEq

/-- One entry of the `messages` array sent to the model. -/
structure Message where
  role : Role
  content : MsgContent
deriving DecidableEq

/-- A pending tool call extracted from tool-use blocks. -/
structure PendingToolCall where
  id : String
  name : String
  input : String
deriving DecidableEq

/-- A non-streaming model response (`client.messages.create`). -/
structure MsgResp where
  content : List Block
  inputTokens : Nat
  outputTokens : Nat
  stopReason : StopReason

/-- The non-streaming backend oracle: from the conversation so far to the
next model response. -/
def Backend : Type :=
  List Message → MsgResp

/-- Raw stream events of the Anthropic SDK message stream
(`for await (const event of stream)`). -/
inductive StreamEv
  | blockStartText
  | blockStartTool (id name : String)
  | deltaText (s : String)
  | deltaInput (partialJson : String)
  | blockStop
  | messageDelta
deriving DecidableEq

/-- A streaming round: the SDK stream events followed by the final
message (`stream.finalMessage()`). -/
structure StreamResp where
  events : List StreamEv
  content : List Block
  inputTokens : Nat
  outputTokens : Nat
  stopReason : StopReason

/-- The streaming backend oracle. -/
def StreamBackend : Type :=
  List Message → StreamResp

/-- The `ExecutionEvent`s yielded by `executeStream` (the floating-point
`percentage` of progress events and the wall-clock `duration_ms` of done
events are not modelled). -/
inductive ExecEvent
  | progress (stepNumber totalSteps : Nat)
  | text (content : String)
  | toolCallStart (id name : String)
  | toolCallDelta (id partialJson : String)
  | toolCallEnd (id : String)
  | toolResult (id : String) (success : Bool) (output : Option String)
  | errorEv (code message : String) (recoverable : Bool)
  | done (inputTokens outputTokens : Nat)
deriving DecidableEq

/-- Extract the pending tool calls of a response content
(`block.type === "tool_use"`). -/
def pendingOf (content : List Block) : List PendingToolCall :=
  content.filterMap fun b =>
    match b with
    | .toolUse id name input => some ⟨id, name, input⟩
    | .text _ => none

/-- Concatenation of the text blocks of a response, in order
(`finalContent += block.text`). -/
def textOf (content : List Block) : String :=
  content.foldl (fun acc b => match b with | .text s => acc ++ s | .toolUse .. => acc) ""

/-- The `content` string of a tool-result block: the JSON of the output on
success (stringification modelled as the payload itself), an error marker
otherwise. -/
def toolResultContent (r : ToolResult) : String :=
  if r.success then r.output.getD "undefined" else "Error: " ++ r.error.getD ""

/-- One switch case of the `executeStream` relay: given the current tool
call (`currentToolCall`), produce the yielded events and the updated
current tool call.  Note: `content_block_stop` yields `tool_call_end`
whenever a current tool call id is set, and `executeStream` never resets
`currentToolCall` back to `null` afterwards. -/
def relayStep (cur : Option String) : StreamEv → List ExecEvent × Option String
  | .blockStartText => ([], cur)
  | .blockStartTool id name => ([.toolCallStart id name], some id)
  | .deltaText s => ([.text s], cur)
  | .deltaInput pj =>
    match cur with
    | some id => ([.toolCallDelta id pj], cur)
    | none => ([], cur)
  | .blockStop =>
    match cur with
    | some id => ([.toolCallEnd id], cur)
    | none => ([], cur)
  | .messageDelta => ([], cur)

/-- The `for await (const event of stream)` loop of `executeStream`: at
the top of each body the abort signal is read
(`options?.abortSignal?.aborted`, modelled as a boolean function of the
global check counter `g`); when it reads true, the cancellation error
event is yielded and the whole generator returns.  Returns the yielded
events, the next global check index, and whether the abort fired. -/
def relayEvents (aborted : Nat → Bool) : Nat → Option String → List StreamEv →
    List ExecEvent × Nat × Bool
  | g, _, [] => ([], g, false)
  | g, cur, ev :: rest =>
    if aborted g then
      ([.errorEv "cancelled" "Execution was cancelled" false], g, true)
    else
      let out := relayStep cur ev
      let more := relayEvents aborted (g + 1) out.2 rest
      (out.1 ++ more.1, more.2)

/-- The tool-dispatch loop of `executeStream`: invoke every pending call
in order, yield one `tool_result` event per call, collect the
`tool_result` blocks for the next user message. -/
def dispatchCalls (tools : ToolRegistry) : List PendingToolCall →
    List ExecEvent × List ToolResultBlock
  | [] => ([], [])
  | c :: rest =>
    let r := invokeTool tools c.name c.input
    let more := dispatchCalls tools rest
    (.toolResult c.id r.success r.output :: more.1,
     ⟨c.id, toolResultContent r, !r.success⟩ :: more.2)

/-- The observable outcome of one `executeStream` run: the full ordered
event sequence, plus the final values of the loop's state (`messages`,
usage totals, the `iteration` counter) and instrumentation (number of
model requests issued, number of tool-dispatch rounds, whether the abort
path was taken). -/
structure StreamRunResult where
  events : List ExecEvent
  messages : List Message
  inputTokens : Nat
  outputTokens : Nat
  requests : Nat
  finalIteration : Nat
  dispatchRounds : Nat
  cancelled : Bool
deriving DecidableEq

/-- The while loop of `executeStream`.  `fuel` is the number of remaining
rounds (`maxIterations - iteration`, so the guard
`iteration < maxIterations` is `fuel > 0`); the `iteration` counter is
incremented at the top of each round, before the progress event and the
model request; after the loop the terminal `done` event carries the
accumulated usage. -/
def streamLoop (backend : StreamBackend) (tools : ToolRegistry) (aborted : Nat → Bool) :
    Nat → Nat → Nat → Nat → List Message → Nat → Nat → Nat → Nat → StreamRunResult
  | 0, iteration, _, _, messages, inT, outT, reqs, rounds =>
    { events := [.done inT outT], messages := messages, inputTokens := inT,
      outputTokens := outT, requests := reqs, finalIteration := iteration,
      dispatchRounds := rounds, cancelled := false }
  | fuel + 1, iteration, totalSteps, g, messages, inT, outT, reqs, rounds =>
    let iter2 := iteration + 1
    let resp := backend messages
    let relayed := relayEvents aborted g none resp.events
    if relayed.2.2 then
      { events := .progress iter2 totalSteps :: relayed.1, messages := messages,
        inputTokens := inT, outputTokens := outT, requests := reqs + 1,
        finalIteration := iter2, dispatchRounds := rounds, cancelled := true }
    else
      let inT2 := inT + resp.inputTokens
      let outT2 := outT + resp.outputTokens
      let pending := pendingOf resp.content
      let messages2 := messages ++ [⟨.assistant, .blocks resp.content⟩]
      if pending = [] ∨ resp.stopReason = .endTurn then
        { events := .progress iter2 totalSteps :: (relayed.1 ++ [.done inT2 outT2]),
          messages := messages2, inputTokens := inT2, outputTokens := outT2,
          requests := reqs + 1, finalIteration := iter2, dispatchRounds := rounds,
          cancelled := false }
      else
        let dispatched := dispatchCalls tools pending
        let messages3 := messages2 ++ [⟨.user, .toolResults dispatched.2⟩]
        let rest := streamLoop backend tools aborted fuel iter2 (iter2 + 1) relayed.2.1
          messages3 inT2 outT2 (reqs + 1) (rounds + 1)
        { rest with
          events := .progress iter2 totalSteps :: (relayed.1 ++ dispatched.1 ++ rest.events) }

/-- `AnthropicAgentAdapter.executeStream`: start from the single user
message, iteration counter 0, `totalSteps` 1, and run the loop.
`maxIterations` (`options?.maxIterations ?? 10`) is kept as an integer so
that non-positive values behave as in the source (`while (0 < max)` never
runs). -/
def executeStreamRun (backend : StreamBackend) (tools : ToolRegistry) (aborted : Nat → Bool)
    (maxIterations : Int) (userMessage : String) : StreamRunResult :=
  streamLoop backend tools aborted maxIterations.toNat 0 1 0
    [⟨.user, .text userMessage⟩] 0 0 0 0

/-- One recorded tool call of the non-streaming `execute` result. -/
structure ToolCallRecord where
  id : String
  name : String
  input : String
  output : Option String
  error : Option String
deriving DecidableEq

/-- The result of a non-streaming `execute` run, with the same
instrumentation as `StreamRunResult`. -/
structure ExecResult where
  output : String
  toolCalls : Option (List ToolCallRecord)
  inputTokens : Nat
  outputTokens : Nat
  requests : Nat
  finalIteration : Nat
  dispatchRounds : Nat
  messages : List Message
deriving DecidableEq

/-- The tool-dispatch loop of `execute`: records each call and collects
the `tool_result` blocks. -/
def dispatchCallsE (tools : ToolRegistry) : List PendingToolCall →
    List ToolCallRecord × List ToolResultBlock
  | [] => ([], [])
  | c :: rest =>
    let r := invokeTool tools c.name c.input
    let more := dispatchCallsE tools rest
    (⟨c.id, c.name, c.input, r.output, r.error⟩ :: more.1,
     ⟨c.id, toolResultContent r, !r.success⟩ :: more.2)

/-- The while loop of `execute`, same iteration discipline as
`streamLoop` but without stream events or an abort check. -/
def execLoop (backend : Backend) (tools : ToolRegistry) :
    Nat → Nat → List Message → Nat → Nat → Nat → Nat → String →
      List ToolCallRecord → ExecResult
  | 0, iteration, messages, inT, outT, reqs, rounds, content, calls =>
    { output := content, toolCalls := if calls = [] then none else some calls,
      inputTokens := inT, outputTokens := outT, requests := reqs,
      finalIteration := iteration, dispatchRounds := rounds, messages := messages }
  | fuel + 1, iteration, messages, inT, outT, reqs, rounds, content, calls =>
    let iter2 := iteration + 1
    let resp := backend messages
    let inT2 := inT + resp.inputTokens
    let outT2 := outT + resp.outputTokens
    let content2 := content ++ textOf resp.content
    let pending := pendingOf resp.content
    let messages2 := messages ++ [⟨.assistant, .blocks resp.content⟩]
    if pending = [] ∨ resp.stopReason = .endTurn then
      { output := content2, toolCalls := if calls = [] then none else some calls,
        inputTokens := inT2, outputTokens := outT2, requests := reqs + 1,
        finalIteration := iter2, dispatchRounds := rounds, messages := messages2 }
    else
      let dispatched := dispatchCallsE tools pending
      execLoop backend tools fuel iter2
        (messages2 ++ [⟨.user, .toolResults dispatched.2⟩]) inT2 outT2 (reqs + 1)
        (rounds + 1) content2 (calls ++ dispatched.1)

/-- `AnthropicAgentAdapter.execute`. -/
def executeRun (backend : Backend) (tools : ToolRegistry) (maxIterations : Int)
    (userMessage : String) : ExecResult :=
  execLoop backend tools maxIterations.toNat 0 [⟨.user, .text userMessage⟩] 0 0 0 0 "" []

/-! ## Tool registry (claim C7) -/

/-- C7: for every name and input, tool-registry invocation resolves to a
structured `ToolResult` and, by the type of `invokeTool`, never raises:
an unknown name gives the not-found failure, a throwing handler is
caught at the invocation boundary and converted to a failure carrying the
thrown message, and a normally returning handler's result is passed
through unchanged. -/
theorem invokeTool_total (tools : ToolRegistry) (toolId input : String) :
    (tools toolId = none →
      invokeTool tools toolId input =
        { success := false, output := none, error := some ("Tool not found: " ++ toolId) }) ∧
    (∀ handler msg, tools toolId = some handler → handler input = .thrown msg →
      invokeTool tools toolId input = { success := false, output := none, error := some msg }) ∧
    (∀ handler r, tools toolId = some handler → handler input = .ok r →
      invokeTool tools toolId input = r) := by
  refine ⟨fun hn => ?_, fun handler msg hh ht => ?_, fun handler r hh ho => ?_⟩ <;>
    simp [invokeTool, *]

/-- A concrete registry exercising all three invocation outcomes. -/
def sampleRegistry : ToolRegistry := fun n =>
  if n = "boom" then some (fun _ => .thrown "kaboom")
  else if n = "calc" then some (fun _ => .ok { success := true, output := some "4" })
  else none

/-- Witness for C7: the spec's concrete scenario (a registry without a
handler for "foo") plus a throwing and a normal handler. -/
theorem invokeTool_total_witness :
    invokeTool sampleRegistry "foo" "{}" =
      { success := false, output := none, error := some "Tool not found: foo" } ∧
    invokeTool sampleRegistry "boom" "{}" =
      { success := false, output := none, error := some "kaboom" } ∧
    invokeTool sampleRegistry "calc" "{}" = { success := true, output := some "4" } :=
  ⟨(invokeTool_total sampleRegistry "foo" "{}").1 rfl,
   (invokeTool_total sampleRegistry "boom" "{}").2.1 _ "kaboom" rfl rfl,
   (invokeTool_total sampleRegistry "calc" "{}").2.2 _ _ rfl rfl⟩

/-! ## Terminal events of `executeStream` (claim C5) -/

/-- Terminal event variants: `done` and `error`. -/
def ExecEvent.isTerminal : ExecEvent → Bool
  | .done .. => true
  | .errorEv .. => true
  | _ => false

/-- No event of the list is terminal. -/
def noTerminal (evs : List ExecEvent) : Bool :=
  evs.all fun e => !e.isTerminal

theorem noTerminal_append (a b : List ExecEvent) :
    noTerminal (a ++ b) = (noTerminal a && noTerminal b) := by
  simp [noTerminal]

theorem streamLoop_zero (backend : StreamBackend) (tools : ToolRegistry) (aborted : Nat → Bool)
    (iteration totalSteps g : Nat) (messages : List Message) (inT outT reqs rounds : Nat) :
    streamLoop backend tools aborted 0 iteration totalSteps g messages inT outT reqs rounds =
      { events := [.done inT outT], messages := messages, inputTokens := inT,
        outputTokens := outT, requests := reqs, finalIteration := iteration,
        dispatchRounds := rounds, cancelled := false } :=
  rfl

theorem streamLoop_succ_abort (backend : StreamBackend) (tools : ToolRegistry)
    (aborted : Nat → Bool) (fuel iteration totalSteps g : Nat) (messages : List Message)
    (inT outT reqs rounds : Nat)
    (hab : (relayEvents aborted g none (backend messages).events).2.2 = true) :
    streamLoop backend tools aborted (fuel + 1) iteration totalSteps g messages
        inT outT reqs rounds =
      { events := .progress (iteration + 1) totalSteps ::
            (relayEvents aborted g none (backend messages).events).1,
        messages := messages, inputTokens := inT, outputTokens := outT,
        requests := reqs + 1, finalIteration := iteration + 1,
        dispatchRounds := rounds, cancelled := true } := by
  rw [streamLoop, if_pos hab]

theorem streamLoop_succ_stop (backend : StreamBackend) (tools : ToolRegistry)
    (aborted : Nat → Bool) (fuel iteration totalSteps g : Nat) (messages : List Message)
    (inT outT reqs rounds : Nat)
    (hab : (relayEvents aborted g none (backend messages).events).2.2 = false)
    (hstop : pendingOf (backend messages).content = [] ∨
      (backend messages).stopReason = .endTurn) :
    streamLoop backend tools aborted (fuel + 1) iteration totalSteps g messages
        inT outT reqs rounds =
      { events := .progress (iteration + 1) totalSteps ::
            ((relayEvents aborted g none (backend messages).events).1 ++
              [.done (inT + (backend messages).inputTokens)
                (outT + (backend messages).outputTokens)]),
        messages := messages ++ [⟨.assistant, .blocks (backend messages).content⟩],
        inputTokens := inT + (backend messages).inputTokens,
        outputTokens := outT + (backend messages).outputTokens,
        requests := reqs + 1, finalIteration := iteration + 1,
        dispatchRounds := rounds, cancelled := false } := by
  rw [streamLoop, if_neg (by simp [hab]), if_pos hstop]

theorem streamLoop_succ_dispatch (backend : StreamBackend) (tools : ToolRegistry)
    (aborted : Nat → Bool) (fuel iteration totalSteps g : Nat) (messages : List Message)
    (inT outT reqs rounds : Nat)
    (hab : (relayEvents aborted g none (backend messages).events).2.2 = false)
    (hstop : ¬(pendingOf (backend messages).content = [] ∨
      (backend messages).stopReason = .endTurn)) :
    streamLoop backend tools aborted (fuel + 1) iteration totalSteps g messages
        inT outT reqs rounds =
      { streamLoop backend tools aborted fuel (iteration + 1) (iteration + 1 + 1)
          (relayEvents aborted g none (backend messages).events).2.1
          (messages ++ [⟨.assistant, .blocks (backend messages).content⟩] ++
            [⟨.user, .toolResults
              (dispatchCalls tools (pendingOf (backend messages).content)).2⟩])
          (inT + (backend messages).inputTokens) (outT + (backend messages).outputTokens)
          (reqs + 1) (rounds + 1) with
        events := .progress (iteration + 1) totalSteps ::
          ((relayEvents aborted g none (backend messages).events).1 ++
            (dispatchCalls tools (pendingOf (backend messages).content)).1 ++
            (streamLoop backend tools aborted fuel (iteration + 1) (iteration + 1 + 1)
              (relayEvents aborted g none (backend messages).events).2.1
              (messages ++ [⟨.assistant, .blocks (backend messages).content⟩] ++
                [⟨.user, .toolResults
                  (dispatchCalls tools (pendingOf (backend messages).content)).2⟩])
              (inT + (backend messages).inputTokens) (outT + (backend messages).outputTokens)
              (reqs + 1) (rounds + 1)).events) } := by
  rw [streamLoop, if_neg (by simp [hab]), if_neg hstop]

theorem relayStep_noTerminal (cur : Option String) (ev : StreamEv) :
    noTerminal (relayStep cur ev).1 = true := by
  cases ev <;> cases cur <;> simp [relayStep, noTerminal, ExecEvent.isTerminal]

theorem relayEvents_spec (aborted : Nat → Bool) : ∀ (evs : List StreamEv) (g : Nat)
    (cur : Option String),
    ((relayEvents aborted g cur evs).2.2 = false →
      noTerminal (relayEvents aborted g cur evs).1 = true) ∧
    ((relayEvents aborted g cur evs).2.2 = true →
      ∃ pre, (relayEvents aborted g cur evs).1 =
          pre ++ [.errorEv "cancelled" "Execution was cancelled" false] ∧
        noTerminal pre = true) := by
  intro evs
  induction evs with
  | nil => intro g cur; simp [relayEvents, noTerminal]
  | cons ev rest ih =>
    intro g cur
    by_cases hab : aborted g = true
    · constructor
      · intro hfalse
        rw [relayEvents, if_pos hab] at hfalse
        simp at hfalse
      · intro _
        rw [relayEvents, if_pos hab]
        exact ⟨[], rfl, rfl⟩
    · have hab2 : aborted g = false := by simpa using hab
      have ihg := ih (g + 1) (relayStep cur ev).2
      constructor
      · intro hfalse
        rw [relayEvents, if_neg (by simp [hab2])] at hfalse ⊢
        simp only [noTerminal_append, Bool.and_eq_true]
        exact ⟨relayStep_noTerminal cur ev, ihg.1 hfalse⟩
      · intro htrue
        rw [relayEvents, if_neg (by simp [hab2])] at htrue ⊢
        obtain ⟨pre, hpre, hnt⟩ := ihg.2 htrue
        refine ⟨(relayStep cur ev).1 ++ pre, ?_, ?_⟩
        · simp [hpre]
        · simp [noTerminal_append, hnt, relayStep_noTerminal cur ev]

theorem dispatchCalls_noTerminal (tools : ToolRegistry) :
    ∀ cs : List PendingToolCall, noTerminal (dispatchCalls tools cs).1 = true := by
  intro cs
  induction cs with
  | nil => simp [dispatchCalls, noTerminal]
  | cons c rest ih =>
    simp only [dispatchCalls, noTerminal, List.all_cons, Bool.and_eq_true]
    exact ⟨rfl, by simpa [noTerminal] using ih⟩

theorem streamLoop_one_terminal (backend : StreamBackend) (tools : ToolRegistry)
    (aborted : Nat → Bool) : ∀ (fuel iteration totalSteps g : Nat) (messages : List Message)
    (inT outT reqs rounds : Nat),
    ∃ pre t,
      (streamLoop backend tools aborted fuel iteration totalSteps g messages
          inT outT reqs rounds).events = pre ++ [t] ∧
        noTerminal pre = true ∧ t.isTerminal = true := by
  intro fuel
  induction fuel with
  | zero =>
    intro iteration totalSteps g messages inT outT reqs rounds
    exact ⟨[], .done inT outT, rfl, rfl, rfl⟩
  | succ fuel ih =>
    intro iteration totalSteps g messages inT outT reqs rounds
    by_cases hab : (relayEvents aborted g none (backend messages).events).2.2 = true
    · obtain ⟨pre, hpre, hnt⟩ := (relayEvents_spec aborted (backend messages).events g none).2 hab
      rw [streamLoop_succ_abort backend tools aborted fuel iteration totalSteps g messages
        inT outT reqs rounds hab]
      refine ⟨ExecEvent.progress (iteration + 1) totalSteps :: pre,
        ExecEvent.errorEv "cancelled" "Execution was cancelled" false, ?_, ?_, rfl⟩
      · simp [hpre]
      · simpa [noTerminal, ExecEvent.isTerminal] using hnt
    · replace hab : (relayEvents aborted g none (backend messages).events).2.2 = false := by
        simpa using hab
      have hrel : noTerminal (relayEvents aborted g none (backend messages).events).1 = true :=
        (relayEvents_spec aborted (backend messages).events g none).1 hab
      by_cases hstop : pendingOf (backend messages).content = [] ∨
          (backend messages).stopReason = .endTurn
      · rw [streamLoop_succ_stop backend tools aborted fuel iteration totalSteps g messages
          inT outT reqs rounds hab hstop]
        refine ⟨ExecEvent.progress (iteration + 1) totalSteps ::
            (relayEvents aborted g none (backend messages).events).1,
          ExecEvent.done (inT + (backend messages).inputTokens)
            (outT + (backend messages).outputTokens), ?_, ?_, rfl⟩
        · simp
        · simpa [noTerminal, ExecEvent.isTerminal] using hrel
      · rw [streamLoop_succ_dispatch backend tools aborted fuel iteration totalSteps g messages
          inT outT reqs rounds hab hstop]
        obtain ⟨pre, t, hev, hnt, hterm⟩ := ih (iteration + 1) (iteration + 1 + 1)
          (relayEvents aborted g none (backend messages).events).2.1
          (messages ++ [⟨.assistant, .blocks (backend messages).content⟩] ++
            [⟨.user, .toolResults
              (dispatchCalls tools (pendingOf (backend messages).content)).2⟩])
          (inT + (backend messages).inputTokens) (outT + (backend messages).outputTokens)
          (reqs + 1) (rounds + 1)
        refine ⟨ExecEvent.progress (iteration + 1) totalSteps ::
          ((relayEvents aborted g none (backend messages).events).1 ++
            (dispatchCalls tools (pendingOf (backend messages).content)).1 ++ pre), t, ?_, ?_,
          hterm⟩
        · rw [hev]
          simp
        · simp only [noTerminal, List.all_cons, List.all_append, Bool.and_eq_true]
          refine ⟨rfl, ⟨?_, ?_⟩, ?_⟩
          · simpa [noTerminal] using hrel
          · simpa [noTerminal] using
              dispatchCalls_noTerminal tools (pendingOf (backend messages).content)
          · simpa [noTerminal] using hnt

theorem relayEvents_abortFalse : ∀ (evs : List StreamEv) (g : Nat) (cur : Option String),
    (relayEvents (fun _ => false) g cur evs).2.2 = false := by
  intro evs
  induction evs with
  | nil => intro g cur; rfl
  | cons ev rest ih =>
    intro g cur
    rw [relayEvents, if_neg (by simp)]
    exact ih (g + 1) (relayStep cur ev).2

theorem execLoop_zero (backend : Backend) (tools : ToolRegistry) (iteration : Nat)
    (messages : List Message) (inT outT reqs rounds : Nat) (content : String)
    (calls : List ToolCallRecord) :
    execLoop backend tools 0 iteration messages inT outT reqs rounds content calls =
      { output := content, toolCalls := if calls = [] then none else some calls,
        inputTokens := inT, outputTokens := outT, requests := reqs,
        finalIteration := iteration, dispatchRounds := rounds, messages := messages } :=
  rfl

theorem execLoop_succ_stop (backend : Backend) (tools : ToolRegistry) (fuel iteration : Nat)
    (messages : List Message) (inT outT reqs rounds : Nat) (content : String)
    (calls : List ToolCallRecord)
    (hstop : pendingOf (backend messages).content = [] ∨
      (backend messages).stopReason = .endTurn) :
    execLoop backend tools (fuel + 1) iteration messages inT outT reqs rounds content calls =
      { output := content ++ textOf (backend messages).content,
        toolCalls := if calls = [] then none else some calls,
        inputTokens := inT + (backend messages).inputTokens,
        outputTokens := outT + (backend messages).outputTokens,
        requests := reqs + 1, finalIteration := iteration + 1, dispatchRounds := rounds,
        messages := messages ++ [⟨.assistant, .blocks (backend messages).content⟩] } := by
  rw [execLoop, if_pos hstop]

theorem execLoop_succ_dispatch (backend : Backend) (tools : ToolRegistry) (fuel iteration : Nat)
    (messages : List Message) (inT outT reqs rounds : Nat) (content : String)
    (calls : List ToolCallRecord)
    (hstop : ¬(pendingOf (backend messages).content = [] ∨
      (backend messages).stopReason = .endTurn)) :
    execLoop backend tools (fuel + 1) iteration messages inT outT reqs rounds content calls =
      execLoop backend tools fuel (iteration + 1)
        (messages ++ [⟨.assistant, .blocks (backend messages).content⟩] ++
          [⟨.user, .toolResults (dispatchCallsE tools (pendingOf (backend messages).content)).2⟩])
        (inT + (backend messages).inputTokens) (outT + (backend messages).outputTokens)
        (reqs + 1) (rounds + 1) (content ++ textOf (backend messages).content)
        (calls ++ (dispatchCallsE tools (pendingOf (backend messages).content)).1) := by
  rw [execLoop, if_neg hstop]

theorem streamLoop_always_tool (backend : StreamBackend) (tools : ToolRegistry)
    (hS : ∀ msgs, pendingOf (backend msgs).content ≠ [] ∧
      (backend msgs).stopReason ≠ .endTurn) :
    ∀ (fuel iteration totalSteps g : Nat) (messages : List Message)
      (inT outT reqs rounds : Nat),
      (streamLoop backend tools (fun _ => false) fuel iteration totalSteps g messages
          inT outT reqs rounds).requests = reqs + fuel ∧
      (streamLoop backend tools (fun _ => false) fuel iteration totalSteps g messages
          inT outT reqs rounds).finalIteration = iteration + fuel ∧
      (∃ i o, (streamLoop backend tools (fun _ => false) fuel iteration totalSteps g messages
          inT outT reqs rounds).events.getLast? = some (.done i o)) ∧
      (streamLoop backend tools (fun _ => false) fuel iteration totalSteps g messages
          inT outT reqs rounds).cancelled = false := by
  intro fuel
  induction fuel with
  | zero =>
    intro iteration totalSteps g messages inT outT reqs rounds
    rw [streamLoop_zero]
    exact ⟨rfl, rfl, ⟨inT, outT, rfl⟩, rfl⟩
  | succ fuel ih =>
    intro iteration totalSteps g messages inT outT reqs rounds
    have hab := relayEvents_abortFalse (backend messages).events g none
    have hstop : ¬(pendingOf (backend messages).content = [] ∨
        (backend messages).stopReason = .endTurn) := by
      intro hor
      rcases hor with hp | hr
      · exact (hS messages).1 hp
      · exact (hS messages).2 hr
    rw [streamLoop_succ_dispatch backend tools (fun _ => false) fuel iteration totalSteps g
      messages inT outT reqs rounds hab hstop]
    obtain ⟨hreq, hit, ⟨i, o, hlast⟩, hcan⟩ := ih (iteration + 1) (iteration + 1 + 1)
      (relayEvents (fun _ => false) g none (backend messages).events).2.1
      (messages ++ [⟨.assistant, .blocks (backend messages).content⟩] ++
        [⟨.user, .toolResults
          (dispatchCalls tools (pendingOf (backend messages).content)).2⟩])
      (inT + (backend messages).inputTokens) (outT + (backend messages).outputTokens)
      (reqs + 1) (rounds + 1)
    refine ⟨by simpa [Nat.add_assoc, Nat.add_comm 1 fuel] using hreq,
      by simpa [Nat.add_assoc, Nat.add_comm 1 fuel] using hit, ⟨i, o, ?_⟩, hcan⟩
    rw [getLast?_cons_or, List.getLast?_append, List.getLast?_append, hlast]
    rfl

theorem execLoop_always_tool (backend : Backend) (tools : ToolRegistry)
    (hE : ∀ msgs, pendingOf (backend msgs).content ≠ [] ∧
      (backend msgs).stopReason ≠ .endTurn) :
    ∀ (fuel iteration : Nat) (messages : List Message) (inT outT reqs rounds : Nat)
      (content : String) (calls : List ToolCallRecord),
      (execLoop backend tools fuel iteration messages inT outT reqs rounds
          content calls).requests = reqs + fuel ∧
      (execLoop backend tools fuel iteration messages inT outT reqs rounds
          content calls).finalIteration = iteration + fuel := by
  intro fuel
  induction fuel with
  | zero =>
    intro iteration messages inT outT reqs rounds content calls
    rw [execLoop_zero]
    exact ⟨rfl, rfl⟩
  | succ fuel ih =>
    intro iteration messages inT outT reqs rounds content calls
    have hstop : ¬(pendingOf (backend messages).content = [] ∨
        (backend messages).stopReason = .endTurn) := by
      intro hor
      rcases hor with hp | hr
      · exact (hE messages).1 hp
      · exact (hE messages).2 hr
    rw [execLoop_succ_dispatch backend tools fuel iteration messages inT outT reqs rounds
      content calls hstop]
    obtain ⟨hreq, hit⟩ := ih (iteration + 1)
      (messages ++ [⟨.assistant, .blocks (backend messages).content⟩] ++
        [⟨.user, .toolResults (dispatchCallsE tools (pendingOf (backend messages).content)).2⟩])
      (inT + (backend messages).inputTokens) (outT + (backend messages).outputTokens)
      (reqs + 1) (rounds + 1) (content ++ textOf (backend messages).content)
      (calls ++ (dispatchCallsE tools (pendingOf (backend messages).content)).1)
    exact ⟨by simpa [Nat.add_assoc, Nat.add_comm 1 fuel] using hreq,
      by simpa [Nat.add_assoc, Nat.add_comm 1 fuel] using hit⟩

/-- C3: for every backend whose every response requests another tool call
(and never signals natural completion), both `execute` and
`executeStream` terminate — they are total Lean functions — after issuing
exactly `max(maxIterations, 0)` model requests, so at most
`maxIterations` iterations are performed; and the final event of the
stream is the successful `done` terminal carrying the accumulated usage,
not an error event. -/
theorem agent_loop_truncation (backendS : StreamBackend) (backendE : Backend)
    (tools : ToolRegistry) (maxIterations : Int) (userMessage : String)
    (hS : ∀ msgs, pendingOf (backendS msgs).content ≠ [] ∧
      (backendS msgs).stopReason ≠ .endTurn)
    (hE : ∀ msgs, pendingOf (backendE msgs).content ≠ [] ∧
      (backendE msgs).stopReason ≠ .endTurn) :
    (executeStreamRun backendS tools (fun _ => false) maxIterations userMessage).requests =
        maxIterations.toNat ∧
    (∃ i o, (executeStreamRun backendS tools (fun _ => false) maxIterations
        userMessage).events.getLast? = some (.done i o)) ∧
    (executeStreamRun backendS tools (fun _ => false) maxIterations
        userMessage).cancelled = false ∧
    (executeRun backendE tools maxIterations userMessage).requests = maxIterations.toNat := by
  obtain ⟨h1, _, h3, h4⟩ := streamLoop_always_tool backendS tools hS maxIterations.toNat 0 1 0
    [⟨.user, .text userMessage⟩] 0 0 0 0
  obtain ⟨h5, _⟩ := execLoop_always_tool backendE tools hE maxIterations.toNat 0
    [⟨.user, .text userMessage⟩] 0 0 0 0 "" []
  exact ⟨by simpa using h1, h3, h4, by simpa using h5⟩

/-- A streaming backend whose every response requests another tool call. -/
def alwaysToolS : StreamBackend := fun _ =>
  { events := [.blockStartTool "t" "loop", .blockStop],
    content := [.toolUse "t" "loop" "{}"],
    inputTokens := 1, outputTokens := 1, stopReason := .toolUse }

/-- A non-streaming backend whose every response requests another tool
call. -/
def alwaysToolE : Backend := fun _ =>
  { content := [.toolUse "t" "loop" "{}"],
    inputTokens := 1, outputTokens := 1, stopReason := .toolUse }

/-- Witness for C3 at a concrete always-tool backend with
`maxIterations = 3` and an empty registry. -/
theorem agent_loop_truncation_witness :
    (executeStreamRun alwaysToolS (fun _ => none) (fun _ => false) 3 "m").requests = 3 ∧
    (executeRun alwaysToolE (fun _ => none) 3 "m").requests = 3 := by
  have h := agent_loop_truncation alwaysToolS alwaysToolE (fun _ => none) 3 "m"
    (fun msgs => by simp [alwaysToolS, pendingOf]) (fun msgs => by simp [alwaysToolE, pendingOf])
  exact ⟨h.1, h.2.2.2⟩

theorem streamLoop_iteration_requests (backend : StreamBackend) (tools : ToolRegistry)
    (aborted : Nat → Bool) : ∀ (fuel iteration totalSteps g : Nat) (messages : List Message)
    (inT outT reqs rounds : Nat),
    ∃ k, k ≤ fuel ∧
      (streamLoop backend tools aborted fuel iteration totalSteps g messages
          inT outT reqs rounds).requests = reqs + k ∧
      (streamLoop backend tools aborted fuel iteration totalSteps g messages
          inT outT reqs rounds).finalIteration = iteration + k := by
  intro fuel
  induction fuel with
  | zero =>
    intro iteration totalSteps g messages inT outT reqs rounds
    exact ⟨0, Nat.le_refl 0, rfl, rfl⟩
  | succ fuel ih =>
    intro iteration totalSteps g messages inT outT reqs rounds
    by_cases hab : (relayEvents aborted g none (backend messages).events).2.2 = true
    · rw [streamLoop_succ_abort backend tools aborted fuel iteration totalSteps g messages
        inT outT reqs rounds hab]
      exact ⟨1, Nat.succ_le_succ (Nat.zero_le fuel), rfl, rfl⟩
    · replace hab : (relayEvents aborted g none (backend messages).events).2.2 = false := by
        simpa using hab
      by_cases hstop : pendingOf (backend messages).content = [] ∨
          (backend messages).stopReason = .endTurn
      · rw [streamLoop_succ_stop backend tools aborted fuel iteration totalSteps g messages
          inT outT reqs rounds hab hstop]
        exact ⟨1, Nat.succ_le_succ (Nat.zero_le fuel), rfl, rfl⟩
      · rw [streamLoop_succ_dispatch backend tools aborted fuel iteration totalSteps g messages
          inT outT reqs rounds hab hstop]
        obtain ⟨k, hk, hreq, hit⟩ := ih (iteration + 1) (iteration + 1 + 1)
          (relayEvents aborted g none (backend messages).events).2.1
          (messages ++ [⟨.assistant, .blocks (backend messages).content⟩] ++
            [⟨.user, .toolResults
              (dispatchCalls tools (pendingOf (backend messages).content)).2⟩])
          (inT + (backend messages).inputTokens) (outT + (backend messages).outputTokens)
          (reqs + 1) (rounds + 1)
        exact ⟨k + 1, Nat.succ_le_succ hk,
          by rw [hreq]; omega, by rw [hit]; omega⟩

theorem execLoop_iteration_requests (backend : Backend) (tools : ToolRegistry) :
    ∀ (fuel iteration : Nat) (messages : List Message) (inT outT reqs rounds : Nat)
      (content : String) (calls : List ToolCallRecord),
    ∃ k, k ≤ fuel ∧
      (execLoop backend tools fuel iteration messages inT outT reqs rounds
          content calls).requests = reqs + k ∧
      (execLoop backend tools fuel iteration messages inT outT reqs rounds
          content calls).finalIteration = iteration + k := by
  intro fuel
  induction fuel with
  | zero =>
    intro iteration messages inT outT reqs rounds content calls
    exact ⟨0, Nat.le_refl 0, rfl, rfl⟩
  | succ fuel ih =>
    intro iteration messages inT outT reqs rounds content calls
    by_cases hstop : pendingOf (backend messages).content = [] ∨
        (backend messages).stopReason = .endTurn
    · rw [execLoop_succ_stop backend tools fuel iteration messages inT outT reqs rounds
        content calls hstop]
      exact ⟨1, Nat.succ_le_succ (Nat.zero_le fuel), rfl, rfl⟩
    · rw [execLoop_succ_dispatch backend tools fuel iteration messages inT outT reqs rounds
        content calls hstop]
      obtain ⟨k, hk, hreq, hit⟩ := ih (iteration + 1)
        (messages ++ [⟨.assistant, .blocks (backend messages).content⟩] ++
          [⟨.user, .toolResults (dispatchCallsE tools (pendingOf (backend messages).content)).2⟩])
        (inT + (backend messages).inputTokens) (outT + (backend messages).outputTokens)
        (reqs + 1) (rounds + 1) (content ++ textOf (backend messages).content)
        (calls ++ (dispatchCallsE tools (pendingOf (backend messages).content)).1)
      exact ⟨k + 1, Nat.succ_le_succ hk,
        by rw [hreq]; omega, by rw [hit]; omega⟩

/-- A backend whose response never contains a tool call. -/
def noToolBackend : Backend := fun _ =>
  { content := [.text "hi"], inputTokens := 3, outputTokens := 5, stopReason := .endTurn }

/-- Counterexample to C4: with a backend whose single response contains no
tool calls, the `iteration` counter of `execute` ends at 1 while zero
tool-dispatch rounds occurred — the counter is incremented at the top of
the round, before the model response arrives, so a response with no tool
calls does increment it, contrary to the claim that it is incremented
only after a tool-dispatch round. -/
theorem iteration_increment_counterexample :
    (executeRun noToolBackend (fun _ => none) 10 "q").finalIteration = 1 ∧
    (executeRun noToolBackend (fun _ => none) 10 "q").dispatchRounds = 0 ∧
    (executeRun noToolBackend (fun _ => none) 10 "q").finalIteration ≠
      (executeRun noToolBackend (fun _ => none) 10 "q").dispatchRounds := by
  refine ⟨rfl, rfl, ?_⟩
  intro h
  simp only [show (executeRun noToolBackend (fun _ => none) 10 "q").finalIteration = 1 from rfl,
    show (executeRun noToolBackend (fun _ => none) 10 "q").dispatchRounds = 0 from rfl] at h
  exact Nat.one_ne_zero h

/-- C4 amended: the iteration counter starts at 0 and is incremented at
the top of each round, before the model request is issued, so it counts
model requests (a round whose response has no tool calls still increments
it); the configured maximum is inclusive: the loop guard
`iteration < maxIterations` means that once the counter reaches the
maximum no further model request is issued, so at most
`max(maxIterations, 0)` requests occur — in both `execute` and
`executeStream`. -/
theorem iteration_counter_counts_requests (backendE : Backend) (backendS : StreamBackend)
    (tools : ToolRegistry) (aborted : Nat → Bool) (maxIterations : Int)
    (userMessage : String) :
    (executeRun backendE tools maxIterations userMessage).finalIteration =
        (executeRun backendE tools maxIterations userMessage).requests ∧
    (executeRun backendE tools maxIterations userMessage).requests ≤ maxIterations.toNat ∧
    (executeStreamRun backendS tools aborted maxIterations userMessage).finalIteration =
        (executeStreamRun backendS tools aborted maxIterations userMessage).requests ∧
    (executeStreamRun backendS tools aborted maxIterations userMessage).requests ≤
        maxIterations.toNat := by
  obtain ⟨k, hk, hreq, hit⟩ := execLoop_iteration_requests backendE tools
    maxIterations.toNat 0 [⟨.user, .text userMessage⟩] 0 0 0 0 "" []
  obtain ⟨k2, hk2, hreq2, hit2⟩ := streamLoop_iteration_requests backendS tools aborted
    maxIterations.toNat 0 1 0 [⟨.user, .text userMessage⟩] 0 0 0 0
  refine ⟨?_, ?_, ?_, ?_⟩
  · unfold executeRun
    rw [hit, hreq]
  · unfold executeRun
    rw [hreq]
    omega
  · unfold executeStreamRun
    rw [hit2, hreq2]
  · unfold executeStreamRun
    rw [hreq2]
    omega

/-- C10: if `maxIterations` is 0 or negative, the loop body never runs:
`execute` returns without issuing any model request, with empty output,
no tool calls, zero token usage, and the conversation still holding only
the user message; `executeStream` yields exactly one event, the terminal
`done` with zero usage, and never contacts the backend. -/
theorem zero_maxIterations_no_request (backendE : Backend) (backendS : StreamBackend)
    (tools : ToolRegistry) (aborted : Nat → Bool) (userMessage : String)
    (maxIterations : Int) (hmi : maxIterations ≤ 0) :
    executeRun backendE tools maxIterations userMessage =
      { output := "", toolCalls := none, inputTokens := 0, outputTokens := 0,
        requests := 0, finalIteration := 0, dispatchRounds := 0,
        messages := [⟨.user, .text userMessage⟩] } ∧
    (executeStreamRun backendS tools aborted maxIterations userMessage).events =
      [.done 0 0] ∧
    (executeStreamRun backendS tools aborted maxIterations userMessage).requests = 0 := by
  have h0 : maxIterations.toNat = 0 := Int.toNat_of_nonpos hmi
  unfold executeRun executeStreamRun
  rw [h0, execLoop_zero, streamLoop_zero]
  exact ⟨rfl, rfl, rfl⟩

/-- Witness for C10 at `maxIterations = -3` with the always-tool backends
of C3. -/
theorem zero_maxIterations_no_request_witness :
    (executeRun alwaysToolE (fun _ => none) (-3) "q").requests = 0 ∧
    (executeStreamRun alwaysToolS (fun _ => none) (fun _ => false) (-3) "q").events =
      [.done 0 0] := by
  have h := zero_maxIterations_no_request alwaysToolE alwaysToolS (fun _ => none)
    (fun _ => false) "q" (-3) (by decide)
  exact ⟨by rw [h.1], h.2.1⟩

/-- C5: every streaming execution produces exactly one terminal event,
either `done` with the usage totals or an `error`, and no event of any
kind appears after it: the event list always decomposes as a
terminal-free prefix followed by a single terminal event in last
position. -/
theorem executeStream_one_terminal (backend : StreamBackend) (tools : ToolRegistry)
    (aborted : Nat → Bool) (maxIterations : Int) (userMessage : String) :
    ∃ pre t,
      (executeStreamRun backend tools aborted maxIterations userMessage).events = pre ++ [t] ∧
        noTerminal pre = true ∧ t.isTerminal = true :=
  streamLoop_one_terminal backend tools aborted maxIterations.toNat 0 1 0
    [⟨.user, .text userMessage⟩] 0 0 0 0

/-! ## Matching of tool_call_start and tool_call_end (claim C2) -/

/-- The ids of the `tool_call_start` events of a list, in order. -/
def startsIn (evs : List ExecEvent) : List String :=
  evs.filterMap fun e =>
    match e with
    | .toolCallStart id _ => some id
    | _ => none

/-- Scan check: walking the list while remembering the started ids, every
`tool_call_end` refers to an id already started. -/
def endsPrecededAux (seen : List String) : List ExecEvent → Bool
  | [] => true
  | .toolCallStart id _ :: rest => endsPrecededAux (id :: seen) rest
  | .toolCallEnd id :: rest => seen.contains id && endsPrecededAux seen rest
  | _ :: rest => endsPrecededAux seen rest

/-- Every `tool_call_end{id}` of the list has an earlier
`tool_call_start` with the same id. -/
def endsPreceded (evs : List ExecEvent) : Bool :=
  endsPrecededAux [] evs

theorem endsPrecededAux_append (ys : List ExecEvent) : ∀ (xs : List ExecEvent)
    (seen : List String),
    endsPrecededAux seen (xs ++ ys) =
      (endsPrecededAux seen xs && endsPrecededAux ((startsIn xs).reverse ++ seen) ys) := by
  intro xs
  induction xs with
  | nil => intro seen; simp [endsPrecededAux, startsIn]
  | cons x rest ih =>
    intro seen
    cases x <;>
      simp [endsPrecededAux, startsIn, ih, List.filterMap_cons, List.reverse_cons,
        List.append_assoc, Bool.and_assoc]

theorem relayStep_endsOK (cur : Option String) (ev : StreamEv) (seen : List String)
    (hinv : ∀ id, cur = some id → id ∈ seen) :
    endsPrecededAux seen (relayStep cur ev).1 = true := by
  cases ev <;> cases cur <;>
    simp [relayStep, endsPrecededAux]
  case blockStop.some cid => exact hinv cid rfl

theorem relayStep_inv (cur : Option String) (ev : StreamEv) (seen : List String)
    (hinv : ∀ id, cur = some id → id ∈ seen) :
    ∀ id, (relayStep cur ev).2 = some id →
      id ∈ (startsIn (relayStep cur ev).1).reverse ++ seen := by
  intro id hid
  cases ev <;> cases cur <;> simp [relayStep, startsIn] at hid ⊢ <;>
    first
    | (subst hid; simp)
    | (exact hinv id (by rw [hid]))

theorem relayEvents_endsPreceded (aborted : Nat → Bool) : ∀ (evs : List StreamEv) (g : Nat)
    (cur : Option String) (seen : List String),
    (∀ id, cur = some id → id ∈ seen) →
    endsPrecededAux seen (relayEvents aborted g cur evs).1 = true := by
  intro evs
  induction evs with
  | nil => intro g cur seen _; rfl
  | cons ev rest ih =>
    intro g cur seen hinv
    by_cases hab : aborted g = true
    · rw [relayEvents, if_pos hab]
      rfl
    · rw [relayEvents, if_neg (by simpa using hab)]
      rw [endsPrecededAux_append]
      simp only [Bool.and_eq_true]
      exact ⟨relayStep_endsOK cur ev seen hinv,
        ih (g + 1) (relayStep cur ev).2 _ (relayStep_inv cur ev seen hinv)⟩

theorem dispatchCalls_endsOK (tools : ToolRegistry) : ∀ (cs : List PendingToolCall)
    (seen : List String),
    endsPrecededAux seen (dispatchCalls tools cs).1 = true ∧
      startsIn (dispatchCalls tools cs).1 = [] := by
  intro cs
  induction cs with
  | nil => intro seen; exact ⟨rfl, rfl⟩
  | cons c rest ih =>
    intro seen
    constructor
    · simp [dispatchCalls, endsPrecededAux, (ih seen).1]
    · simp [dispatchCalls, startsIn, List.filterMap_cons]
      have := (ih seen).2
      simpa [startsIn] using this

theorem streamLoop_endsPreceded (backend : StreamBackend) (tools : ToolRegistry)
    (aborted : Nat → Bool) : ∀ (fuel iteration totalSteps g : Nat) (messages : List Message)
    (inT outT reqs rounds : Nat) (seen : List String),
    endsPrecededAux seen (streamLoop backend tools aborted fuel iteration totalSteps g messages
      inT outT reqs rounds).events = true := by
  intro fuel
  induction fuel with
  | zero =>
    intro iteration totalSteps g messages inT outT reqs rounds seen
    rfl
  | succ fuel ih =>
    intro iteration totalSteps g messages inT outT reqs rounds seen
    have hrelay := relayEvents_endsPreceded aborted (backend messages).events g none seen
      (fun id h => nomatch h)
    by_cases hab : (relayEvents aborted g none (backend messages).events).2.2 = true
    · rw [streamLoop_succ_abort backend tools aborted fuel iteration totalSteps g messages
        inT outT reqs rounds hab]
      simpa [endsPrecededAux] using hrelay
    · replace hab : (relayEvents aborted g none (backend messages).events).2.2 = false := by
        simpa using hab
      by_cases hstop : pendingOf (backend messages).content = [] ∨
          (backend messages).stopReason = .endTurn
      · rw [streamLoop_succ_stop backend tools aborted fuel iteration totalSteps g messages
          inT outT reqs rounds hab hstop]
        simp only [endsPrecededAux, endsPrecededAux_append]
        simp [hrelay, endsPrecededAux]
      · rw [streamLoop_succ_dispatch backend tools aborted fuel iteration totalSteps g messages
          inT outT reqs rounds hab hstop]
        simp only [endsPrecededAux, endsPrecededAux_append, Bool.and_eq_true]
        refine ⟨⟨hrelay, (dispatchCalls_endsOK tools (pendingOf (backend messages).content)
          _).1⟩, ?_⟩
        exact ih (iteration + 1) (iteration + 1 + 1) _ _ _ _ _ _ _

/-- C2 amended (the original claim is refuted by
`toolCallEnd_duplicate_counterexample`): in every event sequence produced
by a streaming execution, every `tool_call_end{id}` event is preceded by
an earlier `tool_call_start` event with the same id; but `executeStream`
does not guarantee at most one `tool_call_end` per `tool_call_start` —
closing a later non-tool content block re-emits `tool_call_end` with the
stale id, because `currentToolCall` is never reset to null. -/
theorem toolCallEnd_preceded_by_start (backend : StreamBackend) (tools : ToolRegistry)
    (aborted : Nat → Bool) (maxIterations : Int) (userMessage : String) :
    endsPreceded (executeStreamRun backend tools aborted maxIterations userMessage).events =
      true :=
  streamLoop_endsPreceded backend tools aborted maxIterations.toNat 0 1 0
    [⟨.user, .text userMessage⟩] 0 0 0 0 []

/-- Number of `tool_call_start{id}` events. -/
def countStarts (id : String) (evs : List ExecEvent) : Nat :=
  evs.countP fun e =>
    match e with
    | .toolCallStart i _ => i == id
    | _ => false

/-- Number of `tool_call_end{id}` events. -/
def countEnds (id : String) (evs : List ExecEvent) : Nat :=
  evs.countP fun e =>
    match e with
    | .toolCallEnd i => i == id
    | _ => false

/-- A protocol-conformant backend whose first response streams a tool-use
block followed by a text block (stream events and final content agree);
the second response is plain text. -/
def dupEndBackend : StreamBackend := fun msgs =>
  if msgs.length ≤ 1 then
    { events := [.blockStartTool "toolu_1" "get_weather", .blockStop, .blockStartText,
        .deltaText "ok", .blockStop],
      content := [.toolUse "toolu_1" "get_weather" "{}", .text "ok"],
      inputTokens := 1, outputTokens := 2, stopReason := .toolUse }
  else
    { events := [.blockStartText, .deltaText "bye", .blockStop],
      content := [.text "bye"], inputTokens := 1, outputTokens := 1,
      stopReason := .endTurn }

/-- Counterexample to C2 as stated: under `dupEndBackend`, `executeStream`
emits one `tool_call_start` for id "toolu_1" but two `tool_call_end`
events for it (the stop of the following text block re-emits the end with
the stale `currentToolCall` id), so there is more than one
`tool_call_end` per `tool_call_start`. -/
theorem toolCallEnd_duplicate_counterexample :
    countStarts "toolu_1"
        (executeStreamRun dupEndBackend (fun _ => none) (fun _ => false) 10 "hi").events = 1 ∧
    countEnds "toolu_1"
        (executeStreamRun dupEndBackend (fun _ => none) (fun _ => false) 10 "hi").events = 2 ∧
    ¬(countEnds "toolu_1"
        (executeStreamRun dupEndBackend (fun _ => none) (fun _ => false) 10 "hi").events ≤
      countStarts "toolu_1"
        (executeStreamRun dupEndBackend (fun _ => none) (fun _ => false) 10 "hi").events) := by
  refine ⟨rfl, rfl, ?_⟩
  intro hle
  rw [show countEnds "toolu_1"
      (executeStreamRun dupEndBackend (fun _ => none) (fun _ => false) 10 "hi").events = 2
      from rfl,
    show countStarts "toolu_1"
      (executeStreamRun dupEndBackend (fun _ => none) (fun _ => false) 10 "hi").events = 1
      from rfl] at hle
  omega

/-! ## Cancellation (claim C6) -/

/-- The `text` and `tool_*` event variants. -/
def ExecEvent.isTextOrTool : ExecEvent → Bool
  | .text _ => true
  | .toolCallStart .. => true
  | .toolCallDelta .. => true
  | .toolCallEnd _ => true
  | .toolResult .. => true
  | _ => false

/-- After any `error` event of the list (in particular the cancellation
acknowledgement), no `text` or `tool_*` event follows. -/
def noTextToolAfterError : List ExecEvent → Bool
  | [] => true
  | .errorEv .. :: rest => (rest.all fun e => ! e.isTextOrTool) && noTextToolAfterError rest
  | _ :: rest => noTextToolAfterError rest

theorem noTextToolAfterError_decomp : ∀ (pre : List ExecEvent) (t : ExecEvent),
    noTerminal pre = true → noTextToolAfterError (pre ++ [t]) = true := by
  intro pre
  induction pre with
  | nil => intro t _; cases t <;> rfl
  | cons p pre ih =>
    intro t hnt
    simp only [noTerminal, List.all_cons, Bool.and_eq_true] at hnt
    cases p <;> simp only [List.cons_append, noTextToolAfterError] <;>
      first
      | exact ih t (by simpa [noTerminal] using hnt.2)
      | exact absurd hnt.1 (by simp [ExecEvent.isTerminal])

/-- A backend that requests one tool call in round one and streams plain
text in round two. -/
def cancelMidToolBackend : StreamBackend := fun msgs =>
  if msgs.length ≤ 1 then
    { events := [.blockStartTool "t1" "echo", .blockStop],
      content := [.toolUse "t1" "echo" "{}"],
      inputTokens := 1, outputTokens := 2, stopReason := .toolUse }
  else
    { events := [.blockStartText, .deltaText "late"],
      content := [.text "late"], inputTokens := 1, outputTokens := 1,
      stopReason := .endTurn }

/-- A registry with the tool requested by `cancelMidToolBackend`. -/
def cancelTools : ToolRegistry := fun n =>
  if n = "echo" then some (fun _ => .ok { success := true, output := some "ok" }) else none

/-- An abort signal that reads false at the two stream-event checks of
round one and true from then on: cancellation is requested while the
round-one tool invocation is in flight. -/
def cancelAbort : Nat → Bool := fun g => decide (2 ≤ g)

/-- Counterexample to C6 as stated: cancellation is requested during the
tool dispatch gap (abort observable from check index 2 on), yet the
in-flight tool invocation's result is NOT discarded — its `tool_result`
event is emitted and the tool-result turn is appended to the conversation
state, and one further model request is issued, before the cancellation
acknowledgement `error{cancelled}` terminates the stream. -/
theorem cancellation_discard_counterexample :
    (executeStreamRun cancelMidToolBackend cancelTools cancelAbort 10 "go").cancelled = true ∧
    (executeStreamRun cancelMidToolBackend cancelTools cancelAbort 10 "go").events.getLast? =
      some (.errorEv "cancelled" "Execution was cancelled" false) ∧
    (executeStreamRun cancelMidToolBackend cancelTools cancelAbort 10 "go").messages =
      [⟨.user, .text "go"⟩,
       ⟨.assistant, .blocks [.toolUse "t1" "echo" "{}"]⟩,
       ⟨.user, .toolResults [⟨"t1", "ok", false⟩]⟩] ∧
    (executeStreamRun cancelMidToolBackend cancelTools cancelAbort 10 "go").requests = 2 :=
  ⟨rfl, rfl, rfl, rfl⟩

/-- C6 amended (the discard part of the original claim is refuted by
`cancellation_discard_counterexample`): after the cancellation
acknowledgement (the terminal `error` event) no further `text` or
`tool_*` event appears, in any execution; but a tool invocation in
flight at cancellation time runs to completion and its result is emitted
as `tool_result` and appended to conversation state — not discarded —
before the acknowledgement, because the dispatch loop contains no abort
check. -/
theorem cancellation_ack_is_last (backend : StreamBackend) (tools : ToolRegistry)
    (aborted : Nat → Bool) (maxIterations : Int) (userMessage : String) :
    noTextToolAfterError
        (executeStreamRun backend tools aborted maxIterations userMessage).events = true ∧
    ExecEvent.toolResult "t1" true (some "ok") ∈
      (executeStreamRun cancelMidToolBackend cancelTools cancelAbort 10 "go").events := by
  constructor
  · obtain ⟨pre, t, hev, hnt, _⟩ := streamLoop_one_terminal backend tools aborted
      maxIterations.toNat 0 1 0 [⟨.user, .text userMessage⟩] 0 0 0 0
    unfold executeStreamRun
    rw [hev]
    exact noTextToolAfterError_decomp pre t hnt
  · rw [show (executeStreamRun cancelMidToolBackend cancelTools cancelAbort 10 "go").events =
      [.progress 1 1, .toolCallStart "t1" "echo", .toolCallEnd "t1",
       .toolResult "t1" true (some "ok"), .progress 2 2,
       .errorEv "cancelled" "Execution was cancelled" false] from rfl]
    simp

/-! ## The push-to-pull bridge of `SSETransport.stream` (claim C8)

The generator buffers decoded events in an array (`events`), a producer
callback pushes each parsed event and wakes a single waiting consumer;
`onError` stores the error, `onClose` sets `done`; the consumer loop
yields queued events while `!done && !error`, then drains the remaining
queue, then throws the stored error if any; a `finally` block closes the
connection however consumption ends.  The JS event-loop interleaving of
producer callbacks and consumer steps is modelled by an explicit schedule
of atomic actions. -/

/-- Consumer phase: the main `while (!done && !error)` loop, the drain
loop over the remaining queue, or finished (after the `finally`). -/
inductive BridgePhase
  | main
  | drain
  | finished
deriving DecidableEq

/-- Bridge state.  `pending` holds the producer's still-undelivered
`onEvent` payloads, `none` modelling a non-JSON event skipped by the
parse catch; `termErr` is the session's terminal (`some e` for `onError`,
`none` for `onClose`), delivered once after all events
(`termDelivered`).  `queue`, `done`, `err` are the generator's buffer and
flags; `yielded` the values pulled so far; `outcome` the surfaced
terminal (`some none` normal end, `some (some e)` the thrown error);
`closed` whether `connection.close()` ran; `stoppedEarly` whether the
consumer abandoned the iterator. -/
structure BridgeState (T : Type) where
  pending : List (Option T)
  termDelivered : Bool
  termErr : Option String
  queue : List T
  done : Bool
  err : Option String
  phase : BridgePhase
  yielded : List T
  outcome : Option (Option String)
  closed : Bool
  stoppedEarly : Bool
deriving DecidableEq

/-- One scheduler action: a producer callback runs, the consumer makes
one step, or the consumer abandons the iterator (a for-await break runs
the generator's `finally`). -/
inductive BridgeAct
  | prod
  | cons
  | stop
deriving DecidableEq

/-- One producer callback: `onEvent` pushes the parsed payload (or is
skipped for non-JSON data), and once the events are exhausted the single
terminal callback runs — `onClose` sets `done`, `onError` stores the
error. -/
def prodStep {T : Type} (s : BridgeState T) : BridgeState T :=
  match s.pending with
  | some t :: rest => { s with pending := rest, queue := s.queue ++ [t] }
  | none :: rest => { s with pending := rest }
  | [] =>
    if s.termDelivered then s
    else { s with termDelivered := true, done := s.termErr.isNone, err := s.termErr }

/-- One consumer step.  In the main loop: if `done` or an error is
stored, fall through to the drain loop; else pull the queue head, or
block waiting for the one-shot wake-up when the queue is empty.  In the
drain loop: pull the queue head, or — once the queue is empty — surface
the outcome (throw the stored error or end normally) and run the
`finally`, closing the connection. -/
def consStep {T : Type} (s : BridgeState T) : BridgeState T :=
  match s.phase with
  | .main =>
    if s.done = true ∨ s.err.isSome then { s with phase := .drain }
    else
      match s.queue with
      | t :: q => { s with queue := q, yielded := s.yielded ++ [t] }
      | [] => s
  | .drain =>
    match s.queue with
    | t :: q => { s with queue := q, yielded := s.yielded ++ [t] }
    | [] => { s with phase := .finished, closed := true, outcome := some s.err }
  | .finished => s

/-- The consumer stops pulling early: the generator's `finally` runs,
closing the connection; no outcome is surfaced. -/
def stopStep {T : Type} (s : BridgeState T) : BridgeState T :=
  match s.phase with
  | .finished => s
  | _ => { s with phase := .finished, closed := true, stoppedEarly := true }

/-- One scheduled step. -/
def bridgeStep {T : Type} (s : BridgeState T) : BridgeAct → BridgeState T
  | .prod => prodStep s
  | .cons => consStep s
  | .stop => stopStep s

/-- Run a schedule. -/
def bridgeRun {T : Type} (s : BridgeState T) (acts : List BridgeAct) : BridgeState T :=
  acts.foldl bridgeStep s

/-- Initial state for a session that will deliver `evs` then the terminal
`termErr`. -/
def bridgeInit {T : Type} (evs : List (Option T)) (termErr : Option String) : BridgeState T :=
  { pending := evs, termDelivered := false, termErr := termErr, queue := [],
    done := false, err := none, phase := .main, yielded := [], outcome := none,
    closed := false, stoppedEarly := false }

/-- Invariant of the bridge. -/
structure BridgeInv {T : Type} (evs : List (Option T)) (termErr : Option String)
    (s : BridgeState T) : Prop where
  conservation : s.yielded ++ s.queue ++ s.pending.reduceOption = evs.reduceOption
  termErrEq : s.termErr = termErr
  errEq : s.err = (if s.termDelivered = true then termErr else none)
  doneEq : s.done = (s.termDelivered && termErr.isNone)
  pendingEmpty : s.termDelivered = true → s.pending = []
  drainTerm : s.phase = .drain → s.termDelivered = true
  finClosed : s.phase = .finished → s.closed = true
  finNormal : s.phase = .finished → s.stoppedEarly = false →
    s.queue = [] ∧ s.termDelivered = true ∧ s.outcome = some termErr
  outcomePre : s.outcome ≠ none → s.phase = .finished ∧ s.stoppedEarly = false
  stoppedFin : s.stoppedEarly = true → s.phase = .finished

theorem bridgeInit_inv {T : Type} (evs : List (Option T)) (termErr : Option String) :
    BridgeInv evs termErr (bridgeInit evs termErr) := by
  refine ⟨by simp [bridgeInit], rfl, rfl, rfl, ?_, ?_, ?_, ?_, ?_, ?_⟩ <;>
    simp [bridgeInit]

theorem prodStep_inv {T : Type} {evs : List (Option T)} {termErr : Option String}
    {s : BridgeState T} (h : BridgeInv evs termErr s) :
    BridgeInv evs termErr (prodStep s) := by
  obtain ⟨h1, h2, h3, h4, h5, h6, h7, h8, h9, h10⟩ := h
  match hp : s.pending with
  | some t :: rest =>
    have hstep : prodStep s = { s with pending := rest, queue := s.queue ++ [t] } := by
      simp [prodStep, hp]
    rw [hstep]
    refine ⟨?_, h2, h3, h4, ?_, h6, h7, ?_, h9, h10⟩
    · rw [← h1, hp]
      simp
    · intro hd
      exact absurd (h5 hd) (by simp [hp])
    · intro hf hs
      obtain ⟨hq, ht, ho⟩ := h8 hf hs
      exact absurd (h5 ht) (by simp [hp])
  | none :: rest =>
    have hstep : prodStep s = { s with pending := rest } := by
      simp [prodStep, hp]
    rw [hstep]
    refine ⟨?_, h2, h3, h4, ?_, h6, h7, ?_, h9, h10⟩
    · rw [← h1, hp]
      simp
    · intro hd
      exact absurd (h5 hd) (by simp [hp])
    · intro hf hs
      obtain ⟨hq, ht, ho⟩ := h8 hf hs
      exact absurd (h5 ht) (by simp [hp])
  | [] =>
    by_cases htd : s.termDelivered = true
    · have hstep : prodStep s = s := by simp [prodStep, hp, htd]
      rw [hstep]
      exact ⟨h1, h2, h3, h4, h5, h6, h7, h8, h9, h10⟩
    · have hstep : prodStep s =
          { s with termDelivered := true, done := s.termErr.isNone, err := s.termErr } := by
        simp [prodStep, hp, htd]
      rw [hstep]
      refine ⟨by simpa [hp] using h1, h2, by simp [h2], by simp [h2], fun _ => hp,
        fun _ => rfl, h7, ?_, h9, h10⟩
      intro hf hs
      obtain ⟨hq, _, ho⟩ := h8 hf hs
      exact ⟨hq, rfl, ho⟩

theorem consStep_inv {T : Type} {evs : List (Option T)} {termErr : Option String}
    {s : BridgeState T} (h : BridgeInv evs termErr s) :
    BridgeInv evs termErr (consStep s) := by
  obtain ⟨h1, h2, h3, h4, h5, h6, h7, h8, h9, h10⟩ := h
  match hph : s.phase with
  | .main =>
    by_cases hde : s.done = true ∨ s.err.isSome
    · have hstep : consStep s = { s with phase := .drain } := by
        simp [consStep, hph, hde]
      have htd : s.termDelivered = true := by
        rcases hde with hd | he
        · rw [h4] at hd
          exact (Bool.and_eq_true _ _ ▸ hd).1
        · rw [h3] at he
          by_cases hb : s.termDelivered = true
          · exact hb
          · simp [hb] at he
      rw [hstep]
      refine ⟨h1, h2, h3, h4, h5, fun _ => htd, by simp, by simp, fun ho => ?_, fun hs => ?_⟩
      · exact absurd (h9 (by simpa using ho)).1 (by simp [hph])
      · exact absurd (h10 hs) (by simp [hph])
    · match hq : s.queue with
      | t :: q =>
        have hstep : consStep s = { s with queue := q, yielded := s.yielded ++ [t] } := by
          simp [consStep, hph, hde, hq]
        rw [hstep]
        refine ⟨?_, h2, h3, h4, h5, h6, h7, ?_, h9, h10⟩
        · rw [← h1, hq]
          simp
        · intro hf hs
          exact absurd hf (by simp [hph])
      | [] =>
        have hstep : consStep s = s := by simp [consStep, hph, hde, hq]
        rw [hstep]
        exact ⟨h1, h2, h3, h4, h5, h6, h7, h8, h9, h10⟩
  | .drain =>
    match hq : s.queue with
    | t :: q =>
      have hstep : consStep s = { s with queue := q, yielded := s.yielded ++ [t] } := by
        simp [consStep, hph, hq]
      rw [hstep]
      refine ⟨?_, h2, h3, h4, h5, h6, h7, ?_, h9, h10⟩
      · rw [← h1, hq]
        simp
      · intro hf hs
        exact absurd hf (by simp [hph])
    | [] =>
      have hstep : consStep s =
          { s with phase := .finished, closed := true, outcome := some s.err } := by
        simp [consStep, hph, hq]
      have htd : s.termDelivered = true := h6 hph
      have hse : s.stoppedEarly = false := by
        by_cases hs : s.stoppedEarly = true
        · exact absurd (h10 hs) (by simp [hph])
        · simpa using hs
      rw [hstep]
      refine ⟨h1, h2, h3, h4, h5, by simp, fun _ => rfl, fun _ _ => ⟨hq, htd, ?_⟩,
        fun _ => ⟨rfl, hse⟩, fun _ => rfl⟩
      rw [h3, if_pos htd]
  | .finished =>
    have hstep : consStep s = s := by simp [consStep, hph]
    rw [hstep]
    exact ⟨h1, h2, h3, h4, h5, h6, h7, h8, h9, h10⟩

theorem stopStep_inv {T : Type} {evs : List (Option T)} {termErr : Option String}
    {s : BridgeState T} (h : BridgeInv evs termErr s) :
    BridgeInv evs termErr (stopStep s) := by
  obtain ⟨h1, h2, h3, h4, h5, h6, h7, h8, h9, h10⟩ := h
  match hph : s.phase with
  | .finished =>
    have hstep : stopStep s = s := by simp [stopStep, hph]
    rw [hstep]
    exact ⟨h1, h2, h3, h4, h5, h6, h7, h8, h9, h10⟩
  | .main =>
    have hstep : stopStep s =
        { s with phase := .finished, closed := true, stoppedEarly := true } := by
      simp [stopStep, hph]
    rw [hstep]
    refine ⟨h1, h2, h3, h4, h5, by simp, fun _ => rfl, by simp, fun ho => ?_, fun _ => rfl⟩
    exact absurd (h9 (by simpa using ho)).1 (by simp [hph])
  | .drain =>
    have hstep : stopStep s =
        { s with phase := .finished, closed := true, stoppedEarly := true } := by
      simp [stopStep, hph]
    rw [hstep]
    refine ⟨h1, h2, h3, h4, h5, by simp, fun _ => rfl, by simp, fun ho => ?_, fun _ => rfl⟩
    exact absurd (h9 (by simpa using ho)).1 (by simp [hph])

theorem bridgeRun_inv {T : Type} (evs : List (Option T)) (termErr : Option String) :
    ∀ (acts : List BridgeAct) (s : BridgeState T),
    BridgeInv evs termErr s → BridgeInv evs termErr (bridgeRun s acts) := by
  intro acts
  induction acts with
  | nil => intro s h; exact h
  | cons a rest ih =>
    intro s h
    have hstep : BridgeInv evs termErr (bridgeStep s a) := by
      cases a with
      | prod => exact prodStep_inv h
      | cons => exact consStep_inv h
      | stop => exact stopStep_inv h
    exact ih (bridgeStep s a) hstep

/-- C8: for every producer script (parsed events, with non-JSON skips,
followed by one terminal) and every interleaving of producer callbacks
and consumer pulls: the values yielded to the consumer are always a
prefix of the produced events in order (no drop, no reorder); whenever
the consumer finishes — normally or by stopping early — the connection
has been closed; and when a terminal outcome is surfaced (normal end or
thrown error), every buffered event has first been yielded, in order,
and the outcome matches the session terminal. -/
theorem bridge_ordered_delivery {T : Type} (evs : List (Option T)) (termErr : Option String)
    (acts : List BridgeAct) :
    (∃ rest, (bridgeRun (bridgeInit evs termErr) acts).yielded ++ rest =
      evs.reduceOption) ∧
    ((bridgeRun (bridgeInit evs termErr) acts).phase = .finished →
      (bridgeRun (bridgeInit evs termErr) acts).closed = true) ∧
    ((bridgeRun (bridgeInit evs termErr) acts).outcome ≠ none →
      (bridgeRun (bridgeInit evs termErr) acts).yielded = evs.reduceOption ∧
      (bridgeRun (bridgeInit evs termErr) acts).outcome = some termErr) := by
  have h := bridgeRun_inv evs termErr acts (bridgeInit evs termErr)
    (bridgeInit_inv evs termErr)
  obtain ⟨h1, h2, h3, h4, h5, h6, h7, h8, h9⟩ := h
  refine ⟨⟨(bridgeRun (bridgeInit evs termErr) acts).queue ++
    (bridgeRun (bridgeInit evs termErr) acts).pending.reduceOption, by simpa using h1⟩,
    h7, fun ho => ?_⟩
  obtain ⟨hf, hs⟩ := h9 ho
  obtain ⟨hq, htd, houtc⟩ := h8 hf hs
  refine ⟨?_, houtc⟩
  have hpend := h5 htd
  rw [← h1, hq, hpend]
  simp

/-- Witness for C8: three produced events (one non-JSON, skipped), a
normal close, and a schedule that delivers everything then lets the
consumer drain and finish. -/
theorem bridge_ordered_delivery_witness :
    (bridgeRun (bridgeInit [some 1, none, some 2] none)
        [.prod, .prod, .prod, .prod, .cons, .cons, .cons, .cons]).closed = true ∧
    (bridgeRun (bridgeInit ([some 1, none, some 2] : List (Option Nat)) none)
        [.prod, .prod, .prod, .prod, .cons, .cons, .cons, .cons]).yielded = [1, 2] ∧
    (bridgeRun (bridgeInit ([some 1, none, some 2] : List (Option Nat)) none)
        [.prod, .prod, .prod, .prod, .cons, .cons, .cons, .cons]).outcome = some none := by
  have h := bridge_ordered_delivery ([some 1, none, some 2] : List (Option Nat)) none
    [.prod, .prod, .prod, .prod, .cons, .cons, .cons, .cons]
  refine ⟨h.2.1 rfl, ?_, (h.2.2 (by decide)).2⟩
  have := (h.2.2 (by decide)).1
  simpa using this

end OpenHarness